import Mathlib

/-!
Verification of the `ai-shell` fork (cheney-yan/ai-shell) against its
natural-language specification.

The development shallowly embeds the TypeScript sources:
  * `src/helpers/command-history.ts` — the command-history buffer
    (`addToCommandHistory`, `formatCommandHistoryForAI`, `trimOutput`) and the
    stream decoder / cancellable reader (`readData`, `parseContent`,
    `shellCodeExclusions`);
  * `src/helpers/fork-ai.ts` — the message/exit handlers of
    `generateCompletionWithFork`.

JavaScript strings are modelled as Lean `String`s (operated on through their
character lists), JS numbers that hold exit codes as `Int`, timestamps as
`Nat`.  All recursive definitions are structural (fuel-indexed where the JS
loop is not), so every definition evaluates by kernel reduction.
-/

/-! ## Generic string helpers (models of the JS string primitives used) -/

/-- Model of `String.prototype.includes` restricted to the needle check used by
the source (`payload.includes("[DONE]")`): substring test on char lists. -/
def isSubChars (needle : List Char) : List Char → Bool
  | [] => needle.isEmpty
  | c :: cs => needle.isPrefixOf (c :: cs) || isSubChars needle cs

/-- Substring test on strings (`haystack.includes(needle)`). -/
def containsSub (haystack needle : String) : Bool :=
  isSubChars needle.toList haystack.toList

/-- Model of `String.prototype.startsWith`. -/
def startsWithS (s pre : String) : Bool :=
  pre.toList.isPrefixOf s.toList

/-- Characters matched by the JS `\s` class / trimmed by `String.prototype.trim`
(the subset that can occur in this code path). -/
def jsWS (c : Char) : Bool :=
  c = ' ' || c = '\t' || c = '\n' || c = '\r' || c = '\x0b' || c = '\x0c'

/-- Model of `String.prototype.trim`. -/
def jsTrim (s : String) : String :=
  (((s.toList.dropWhile jsWS).reverse.dropWhile jsWS).reverse).asString

/-- Fuel-indexed worker for `jsSplit`; fuel `length + 1` always suffices for a
non-empty separator because each step consumes at least one character. -/
def splitSepF (sep : List Char) : Nat → List Char → List Char → List (List Char)
  | _, acc, [] => [acc.reverse]
  | 0, acc, rest => [acc.reverse ++ rest]
  | fuel + 1, acc, c :: cs =>
    if sep.isPrefixOf (c :: cs) then
      acc.reverse :: splitSepF sep fuel [] (List.drop sep.length (c :: cs))
    else
      splitSepF sep fuel (c :: acc) cs

/-- Model of `String.prototype.split` with a non-empty string separator
(the source only splits on `"\n\n"` and `'\n'`). -/
def jsSplit (s sep : String) : List String :=
  (splitSepF sep.toList (s.toList.length + 1) [] s.toList).map List.asString

/-- Lines of a string, as produced by `output.split('\n')`. -/
def linesOf (s : String) : List String := jsSplit s "\n"

/-- Model of `Array.prototype.join('\n')`. -/
def joinNl : List String → String
  | [] => ""
  | [x] => x
  | x :: y :: xs => x ++ "\n" ++ joinNl (y :: xs)

/-- Flatten a list of lists (used to flatten per-chunk payload lists). -/
def flattenL : List (List α) → List α
  | [] => []
  | l :: ls => l ++ flattenL ls

/-- Index-passing map, as in `array.map((x, index) => ...)`. -/
def mapIdxF (f : Nat → α → β) : Nat → List α → List β
  | _, [] => []
  | i, a :: as => f i a :: mapIdxF f (i + 1) as

/-! ## Command history buffer (`src/helpers/command-history.ts`, lines 1–102) -/

/-- The `CommandResult` interface: one executed shell command. -/
structure CommandResult where
  command : String
  exitCode : Int
  stdout : String
  stderr : String
  timestamp : Nat
deriving DecidableEq, Repr

/-- Source constant `MAX_HISTORY_SIZE = 5`. -/
def MAX_HISTORY_SIZE : Nat := 5

/-- Function `addToCommandHistory`: `commandHistory.unshift(result)` then
`if (commandHistory.length > MAX_HISTORY_SIZE) commandHistory.pop()`.
The module-scoped mutable array is made an explicit argument; the head of the
list is the most recent entry, `pop` removes the last element. -/
def addToCommandHistory (result : CommandResult) (commandHistory : List CommandResult) :
    List CommandResult :=
  let h := result :: commandHistory
  if h.length > MAX_HISTORY_SIZE then h.dropLast else h

/-- History reached from the empty buffer by a sequence of insertions
(earliest insertion first in `inserts`). -/
def histAfter (inserts : List CommandResult) : List CommandResult :=
  inserts.foldl (fun h r => addToCommandHistory r h) []

/-- Function `trimOutput(output, maxLines)`: keep the first and last
`Math.floor(maxLines / 2)` lines around an elision marker.  The JS
`lines.slice(-halfMax)` returns the whole array when `halfMax = 0`
(`slice(-0)` is `slice(0)`), which the model reproduces. -/
def trimOutput (output : String) (maxLines : Nat) : String :=
  let lines := linesOf output
  if lines.length ≤ maxLines then output
  else
    let halfMax := maxLines / 2
    let firstHalf := lines.take halfMax
    let secondHalf := if halfMax = 0 then lines else lines.drop (lines.length - halfMax)
    joinNl (firstHalf ++
      ["... (" ++ toString (lines.length - maxLines) ++ " more lines) ..."] ++
      secondHalf)

/-- One entry of the `map` callback inside `formatCommandHistoryForAI`.  `fmtTime`
abstracts `new Date(timestamp).toLocaleTimeString()`, whose rendering is
locale/host dependent; no claim depends on its text. -/
def formatEntry (fmtTime : Nat → String) (total index : Nat) (r : CommandResult) : String :=
  let date := fmtTime r.timestamp
  let commandNumber := total - index
  let statusIndicator := if r.exitCode = 0 then "✓" else "✗"
  let o1 := "## Command " ++ toString commandNumber ++ " [" ++ date ++ "] " ++
    statusIndicator ++ "\n"
  let o2 := o1 ++ "```bash\n$ " ++ r.command ++ "\n```\n"
  let o3 := o2 ++ "Exit code: " ++ toString r.exitCode ++ "\n"
  let o4 := if r.stdout ≠ "" && jsTrim r.stdout ≠ "" then
      o3 ++ "\nOutput:\n```\n" ++ trimOutput r.stdout 15 ++ "\n```\n"
    else o3
  if r.stderr ≠ "" && jsTrim r.stderr ≠ "" then
    o4 ++ "\nError:\n```\n" ++ trimOutput r.stderr 15 ++ "\n```\n"
  else o4

/-- Function `formatCommandHistoryForAI()`: the empty buffer yields the fixed message,
otherwise the numbered entries joined with `'\n'`. -/
def formatCommandHistoryForAI (fmtTime : Nat → String)
    (commandHistory : List CommandResult) : String :=
  if commandHistory.length = 0 then "No command history available."
  else joinNl (mapIdxF (formatEntry fmtTime commandHistory.length) 0 commandHistory)

/-! ## Exclusion patterns (`RegExp | string` values used by `readData`) -/

/-- A JS pattern as used by `readData`: either a regular expression, modelled
by a function giving the length of a match starting at the head of a suffix
(`none` if no match starts there), or a literal string. -/
inductive XPat where
  | re (findAt : List Char → Option Nat)
  | lit (s : String)

/-- JS truthiness of a pattern value (`if (excludedPrefix) break`): a `RegExp`
object is always truthy, a string is truthy iff non-empty. -/
def patTruthy : Option XPat → Bool
  | none => false
  | some (.re _) => true
  | some (.lit s) => !(s = "")

/-- Fuel-indexed removal of all left-to-right, non-overlapping matches —
the semantics of `String.prototype.replaceAll(pattern, "")` with a global
regex or a string pattern.  Fuel `length` suffices: each step consumes at
least one character.  A zero-length match reports no progress and is treated
as no match (no pattern in the source can match the empty string). -/
def removeMatchesF (f : List Char → Option Nat) : Nat → List Char → List Char
  | _, [] => []
  | 0, cs => cs
  | fuel + 1, c :: cs =>
    match f (c :: cs) with
    | some (n + 1) => removeMatchesF f fuel (List.drop n cs)
    | _ => c :: removeMatchesF f fuel cs

/-- Matcher for a literal string pattern. -/
def litFind (t : List Char) (cs : List Char) : Option Nat :=
  if t.isPrefixOf cs then some t.length else none

/-- Model of `current.replaceAll(pattern, "")`.  `replaceAll("", "")` is the
identity in JS. -/
def XPat.strip : XPat → String → String
  | .re f, s => (removeMatchesF f s.toList.length s.toList).asString
  | .lit t, s =>
    if t = "" then s
    else (removeMatchesF (litFind t.toList) s.toList.length s.toList).asString

/-- Does the pattern match anywhere in the string?  Backs
`buffer.match(pattern)` (with the `g` flag, `match` is non-null iff some
position matches). -/
def XPat.test : XPat → String → Bool
  | .re f, s => (s.toList.tails.any fun suf => (f suf).isSome)
  | .lit t, s => isSubChars t.toList s.toList

/-- Model of `buffer.match(excluded[0] ?? "")`: with the first exclusion absent the
empty pattern is used, which matches every string. -/
def bufferMatches (startDetector : Option XPat) (buffer : String) : Bool :=
  match startDetector with
  | none => true
  | some p => p.test buffer

/-- ASCII letter, the `[a-zA-Z]` class (the `i` flag on the source regexes is
redundant for this class). -/
def isAsciiLetter (c : Char) : Bool :=
  let n := c.toNat
  (64 < n && n < 91) || (96 < n && n < 123)

/-- Matcher of `/```[a-zA-Z]*\n/gi`: three backticks, a maximal letter run,
then a newline (the regex alternative after greedy matching, since letters
and `\n` are disjoint). -/
def fenceNlFind : List Char → Option Nat
  | '`' :: '`' :: '`' :: rest =>
    let k := (rest.takeWhile isAsciiLetter).length
    match rest.drop k with
    | '\n' :: _ => some (3 + k + 1)
    | _ => none
  | _ => none

/-- Matcher of `/```[a-zA-Z]*/gi`: three backticks then a maximal letter
run. -/
def fenceFind : List Char → Option Nat
  | '`' :: '`' :: '`' :: rest => some (3 + (rest.takeWhile isAsciiLetter).length)
  | _ => none

/-- The second entry of `shellCodeExclusions`, named for reuse in theorems. -/
def fencePattern : XPat := .re fenceFind

/-- Source constant `shellCodeExclusions = [/```[a-zA-Z]*\n/gi, /```[a-zA-Z]*/gi, '\n']`.
Entries are `Option` because the TS element type admits `undefined`. -/
def shellCodeExclusions : List (Option XPat) :=
  [some (.re fenceNlFind), some fencePattern, some (.lit "\n")]

/-- Modelled from the spec: the helper `stripRegexPatterns` is imported from
`./strip-regex-patterns`, a module absent from the provided sources.  Per the
spec, once emission has begun "every fragment has ALL exclusion patterns
applied (regex patterns removed globally, literal strings removed)", skipping
absent (`undefined`) entries; falsy entries (the empty string) strip
nothing. -/
def stripRegexPatterns (input : String) (patternList : List (Option XPat)) : String :=
  patternList.foldl
    (fun current p =>
      match p with
      | none => current
      | some q => if patTruthy (some q) then q.strip current else current)
    input

/-! ## JSON (model of `JSON.parse` for the payload grammar) -/

/-- Parsed JSON values.  `num` keeps the source lexeme: no claim computes with
numeric values. -/
inductive JVal where
  | null
  | bool (b : Bool)
  | num (lexeme : String)
  | str (s : String)
  | arr (elems : List JVal)
  | obj (fields : List (String × JVal))
deriving Repr

/-- JSON insignificant whitespace. -/
def jsonWSp (c : Char) : Bool := c = ' ' || c = '\t' || c = '\n' || c = '\r'

/-- Skip JSON whitespace. -/
def skipWS (cs : List Char) : List Char := cs.dropWhile jsonWSp

/-- Hex digit value. -/
def hexVal (c : Char) : Option Nat :=
  let n := c.toNat
  if n < 48 then none
  else if n ≤ 57 then some (n - 48)
  else if 97 ≤ n then (if n ≤ 102 then some (n - 87) else none)
  else if 65 ≤ n && n ≤ 70 then some (n - 55)
  else none

/-- One escape sequence after a backslash in a JSON string. -/
def parseEsc : List Char → Option (Char × List Char)
  | '"' :: r => some ('"', r)
  | '\\' :: r => some ('\\', r)
  | '/' :: r => some ('/', r)
  | 'b' :: r => some ('\x08', r)
  | 'f' :: r => some ('\x0c', r)
  | 'n' :: r => some ('\n', r)
  | 'r' :: r => some ('\r', r)
  | 't' :: r => some ('\t', r)
  | 'u' :: a :: b :: c :: d :: r =>
    match hexVal a, hexVal b, hexVal c, hexVal d with
    | some x, some y, some z, some w => some (Char.ofNat (((x * 16 + y) * 16 + z) * 16 + w), r)
    | _, _, _, _ => none
  | _ => none

/-- Body of a JSON string after the opening quote (fuel = remaining length).
Raw control characters are accepted (a laxity relative to `JSON.parse`; the
modelled payloads never contain them unescaped). -/
def parseStrBody : Nat → List Char → List Char → Option (String × List Char)
  | 0, _, _ => none
  | _ + 1, _, [] => none
  | _ + 1, acc, '"' :: r => some (acc.reverse.asString, r)
  | fuel + 1, acc, '\\' :: r =>
    match parseEsc r with
    | some (c, r2) => parseStrBody fuel (c :: acc) r2
    | none => none
  | fuel + 1, acc, c :: r => parseStrBody fuel (c :: acc) r

/-- Consume one or more decimal digits. -/
def digits1 (cs : List Char) : Option (List Char) :=
  let ds := cs.takeWhile Char.isDigit
  if ds.isEmpty then none else some (cs.drop ds.length)

/-- Exponent tail of a JSON number, after `e`/`E`. -/
def jsonExpTail (cs : List Char) : Option (List Char) :=
  let cs2 := match cs with
    | '+' :: r => r
    | '-' :: r => r
    | r => r
  digits1 cs2

/-- Remainder after a JSON number (grammar validated loosely: the
leading-zero restriction is not enforced; no claim involves numbers). -/
def parseNumR (cs : List Char) : Option (List Char) :=
  let cs1 := match cs with
    | '-' :: r => r
    | r => r
  (digits1 cs1).bind fun r1 =>
    (match r1 with
      | '.' :: r => digits1 r
      | r => some r).bind fun r2 =>
      match r2 with
      | 'e' :: r => jsonExpTail r
      | 'E' :: r => jsonExpTail r
      | r => some r

/-- Lexeme consumed between `full` and its suffix `rest`. -/
def numLexeme (full rest : List Char) : String :=
  (full.take (full.length - rest.length)).asString

mutual

/-- One JSON value (recursive descent, fuel-indexed). -/
def parseVal : Nat → List Char → Option (JVal × List Char)
  | 0, _ => none
  | fuel + 1, cs =>
    match skipWS cs with
    | [] => none
    | 'n' :: r => if ['u', 'l', 'l'].isPrefixOf r then some (.null, r.drop 3) else none
    | 't' :: r => if ['r', 'u', 'e'].isPrefixOf r then some (.bool true, r.drop 3) else none
    | 'f' :: r => if ['a', 'l', 's', 'e'].isPrefixOf r then some (.bool false, r.drop 4) else none
    | '"' :: r => (parseStrBody (r.length + 1) [] r).map fun p => (.str p.1, p.2)
    | '[' :: r =>
      (match skipWS r with
        | ']' :: r2 => some (.arr [], r2)
        | _ => (parseElems fuel r).map fun p => (.arr p.1, p.2))
    | '\x7b' :: r =>
      (match skipWS r with
        | '\x7d' :: r2 => some (.obj [], r2)
        | _ => (parseFields fuel r).map fun p => (.obj p.1, p.2))
    | c :: r =>
      if c = '-' || c.isDigit then
        (parseNumR (c :: r)).map fun rest => (.num (numLexeme (c :: r) rest), rest)
      else none

/-- Comma-separated array elements up to the closing bracket. -/
def parseElems : Nat → List Char → Option (List JVal × List Char)
  | 0, _ => none
  | fuel + 1, cs =>
    (parseVal fuel cs).bind fun p =>
      match skipWS p.2 with
      | ',' :: r2 => (parseElems fuel r2).map fun q => (p.1 :: q.1, q.2)
      | ']' :: r2 => some ([p.1], r2)
      | _ => none

/-- Comma-separated object members up to the closing brace. -/
def parseFields : Nat → List Char → Option (List (String × JVal) × List Char)
  | 0, _ => none
  | fuel + 1, cs =>
    match skipWS cs with
    | '"' :: r =>
      (parseStrBody (r.length + 1) [] r).bind fun kp =>
        match skipWS kp.2 with
        | ':' :: r2 =>
          (parseVal fuel r2).bind fun vp =>
            match skipWS vp.2 with
            | ',' :: r4 => (parseFields fuel r4).map fun q => ((kp.1, vp.1) :: q.1, q.2)
            | '\x7d' :: r4 => some ([(kp.1, vp.1)], r4)
            | _ => none
        | _ => none
    | _ => none

end

/-- Model of `JSON.parse`: a single value followed only by whitespace. -/
def jsonParse (s : String) : Option JVal :=
  match parseVal (2 * s.toList.length + 2) s.toList with
  | some (v, rest) => if (skipWS rest).isEmpty then some v else none
  | none => none

/-- Object member lookup; with duplicate keys `JSON.parse` keeps the last
occurrence. -/
def lookupLast (fields : List (String × JVal)) (k : String) : Option JVal :=
  fields.foldl (fun acc f => if f.1 = k then some f.2 else acc) none

/-- JS property access `x.k` under optional chaining: `undefined` on
non-objects and missing members. -/
def jField (j : JVal) (k : String) : Option JVal :=
  match j with
  | .obj fs => lookupLast fs k
  | _ => none

/-- JS element access `x?.[0]`: the head of an array, `undefined`
otherwise (the upstream contract always sends an array of choices). -/
def jIndexZero : JVal → Option JVal
  | .arr es => es.head?
  | _ => none

/-! ## `parseContent` (`command-history.ts` lines 407–415) -/

/-- Model of `payload.replaceAll(/(\n)?^data:\s*/g, "")`: without the `m` flag, `^`
only matches at the start of the string (and nothing can precede position 0,
so the `(\n)?` group is inert), hence exactly one leading `data:` marker and
the whitespace after it are removed. -/
def stripDataMarker (p : String) : String :=
  if startsWithS p "data:" then ((p.toList.drop 5).dropWhile jsWS).asString
  else p

/-- Stands for the rendering of the host JS exception interpolated by
`${error}` in the catch branch; its exact text is environment-defined and no
claim depends on it. -/
def jsErrorText : String := "SyntaxError: Unexpected token"

/-- Function `parseContent(payload)`: strip the event-data marker, `JSON.parse` the
remainder and extract `delta.choices?.[0]?.delta?.content ?? ""`; any
exception (a parse failure, or the `TypeError` from accessing `.choices` on a
parsed `null`) yields the diagnostic string built in the catch branch.  The
upstream contract types `content` as text, so a non-string `content` is
modelled as the empty fragment. -/
def parseContent (payload : String) : String :=
  match jsonParse (jsTrim (stripDataMarker payload)) with
  | none => "Error with JSON.parse and " ++ payload ++ ".\n" ++ jsErrorText
  | some JVal.null => "Error with JSON.parse and " ++ payload ++ ".\n" ++ jsErrorText
  | some delta =>
    match ((jField delta "choices").bind jIndexZero).bind
        (fun x => (jField x "delta").bind (fun y => jField y "content")) with
    | some (JVal.str s) => s
    | _ => ""

/-! ## The cancellable reader `readData` (`command-history.ts` lines 299–420)

The promise executor is embedded as a transition system.  External stimuli —
a chunk yielded by the stream iterator, a keypress, a SIGINT delivery, the
end of the stream — are events; the single-threaded JS event loop means the
listeners only run between chunk iterations, which the event list makes
explicit.  The local variables of the executor and the relevant process state
(SIGINT listener list) form the state. -/

/-- A process SIGINT listener: the one registered before `readData` ran, or
the analysis handler that `readData` installs. -/
inductive SigHandler where
  | prior
  | analysis
deriving DecidableEq, Repr

/-- External stimuli of one `readData` run. -/
inductive Ev where
  | chunk (s : String)
  | keypress (name : String)
  | sigint
  | streamEnd

/-- Configuration of a run: the `...excluded` rest argument and
`options?.isAnalysis`. -/
structure RDConfig where
  excluded : List (Option XPat)
  isAnalysis : Bool

/-- State of one `readData` run.  `matchFired` is a history variable for the
proofs only: it records whether `buffer.match(...)` ever succeeded in the
start-detection branch; no transition reads it. -/
structure RDState where
  stopTextStream : Bool
  stoppedByUser : Bool
  data : String
  dataStart : Bool
  buffer : String
  originalSigintHandler : Option SigHandler
  handlers : List SigHandler
  settled : Option String
  writes : List String
  loopDone : Bool
  priorInvocations : Nat
  matchFired : Bool
deriving DecidableEq, Repr

/-- Model of `resolve(v)`: only the first settlement of the promise counts. -/
def resolveWith (σ : RDState) (v : String) : RDState :=
  match σ.settled with
  | some _ => σ
  | none => { σ with settled := some v }

/-- The `cleanup` closure: in analysis mode,
`process.removeAllListeners("SIGINT")` then re-register
`originalSigintHandler` if one was saved. -/
def cleanupState (cfg : RDConfig) (σ : RDState) : RDState :=
  if cfg.isAnalysis then
    match σ.originalSigintHandler with
    | some h => { σ with handlers := [h] }
    | none => { σ with handlers := [] }
  else σ

/-- Initial state: lines 305–343.  In analysis mode the last previously
registered SIGINT listener is saved (`process.listeners("SIGINT").pop()`),
all are removed, and the analysis handler is installed. -/
def initRDState (cfg : RDConfig) (priorRegistered : Bool) : RDState :=
  let baseHandlers : List SigHandler := if priorRegistered then [.prior] else []
  let st : RDState :=
    { stopTextStream := false, stoppedByUser := false, data := "", dataStart := false,
      buffer := "", originalSigintHandler := none, handlers := baseHandlers,
      settled := none, writes := [], loopDone := false, priorInvocations := 0,
      matchFired := false }
  if cfg.isAnalysis then
    { st with originalSigintHandler := baseHandlers.getLast?, handlers := [.analysis] }
  else st

/-- Message written by the analysis SIGINT handler
(`"\n\n" + yellow(i18n.t("Analysis stopped")) + '\n'`; `yellow` and `i18n.t`
are modelled as the identity). -/
def analysisStoppedMsg : String := "\n\nAnalysis stopped\n"

/-- Message written on the stop path when `stoppedByUser`
(`'\n' + yellow(i18n.t("Analysis complete")) + '\n'`). -/
def analysisCompleteMsg : String := "\nAnalysis complete\n"

/-- Outcome of processing one payload inside the `for...of payloads` loop. -/
inductive POut where
  | finished
  | breakChunk
  | continueNext

/-- One iteration of the payload loop (lines 366–403). -/
def payloadStep (cfg : RDConfig) (σ : RDState) (payload : String) : RDState × POut :=
  if containsSub payload "[DONE]" || σ.stopTextStream then
    -- lines 367–377: finalize, clean up, resolve, return
    let σ := { σ with dataStart := false }
    let σ := cleanupState cfg σ
    let σ := if σ.stoppedByUser then { σ with writes := σ.writes ++ [analysisCompleteMsg] }
      else σ
    (resolveWith σ σ.data, .finished)
  else if startsWithS payload "data:" then
    let content := parseContent payload
    let startDetector := cfg.excluded.head?.join  -- excluded[0], possibly undefined
    -- lines 383–392: start detection against the look-behind buffer
    let startState :=
      if !σ.dataStart then
        let buf := σ.buffer ++ content
        if bufferMatches startDetector buf then
          ({ σ with dataStart := true, buffer := "", matchFired := true },
            patTruthy startDetector)
        else ({ σ with buffer := buf }, false)
      else (σ, false)
    let σ := startState.1
    if startState.2 then (σ, .breakChunk)
    else if σ.dataStart && !(content = "") then
      -- lines 394–402: strip all exclusions, accumulate, emit
      let stripped := stripRegexPatterns content cfg.excluded
      ({ σ with data := σ.data ++ stripped, writes := σ.writes ++ [stripped] },
        .continueNext)
    else (σ, .continueNext)
  else (σ, .continueNext)

/-- The payload loop over one chunk: `break` skips the remaining payloads of
this chunk; `return` ends the whole stream loop (`loopDone`). -/
def chunkPayloads (cfg : RDConfig) : RDState → List String → RDState
  | σ, [] => σ
  | σ, p :: ps =>
    match payloadStep cfg σ p with
    | (σ2, .finished) => { σ2 with loopDone := true }
    | (σ2, .breakChunk) => σ2
    | (σ2, .continueNext) => chunkPayloads cfg σ2 ps

/-- Source constant `stopTextStreamKeys` (the keys `q` and `escape`). -/
def stopTextStreamKeys : List String := ["q", "escape"]

/-- The keypress listener (lines 345–349); it is never detached, and runs
whenever the event loop is free. -/
def keypressStep (σ : RDState) (name : String) : RDState :=
  if stopTextStreamKeys.contains name then { σ with stopTextStream := true } else σ

/-- Body of one SIGINT listener.  The analysis handler (lines 333–342) sets
both stop flags, writes the stopped message and resolves with the data
accumulated so far — it does NOT run `cleanup`.  A prior handler invocation
is only counted. -/
def sigHandlerRun (s : RDState) : SigHandler → RDState
  | .prior => { s with priorInvocations := s.priorInvocations + 1 }
  | .analysis =>
    let s2 := { s with stoppedByUser := true, stopTextStream := true,
                       writes := s.writes ++ [analysisStoppedMsg] }
    resolveWith s2 s2.data

/-- Delivery of a SIGINT: Node invokes the registered listeners in order. -/
def sigintStep (σ : RDState) : RDState :=
  σ.handlers.foldl sigHandlerRun σ

/-- End of the stream: the `for await` loop exits, then lines 417–419 run
(`cleanup(); resolve(data)`). -/
def streamEndStep (cfg : RDConfig) (σ : RDState) : RDState :=
  if σ.loopDone then σ
  else
    let σ2 := cleanupState cfg { σ with loopDone := true }
    resolveWith σ2 σ2.data

/-- One event. A chunk is split on the `"\n\n"` frame delimiter (line 365);
chunks after the executor returned are not observed. -/
def evStep (cfg : RDConfig) (σ : RDState) : Ev → RDState
  | .chunk s => if σ.loopDone then σ else chunkPayloads cfg σ (jsSplit s "\n\n")
  | .keypress n => keypressStep σ n
  | .sigint => sigintStep σ
  | .streamEnd => streamEndStep cfg σ

/-- A whole `readData` run over an event list. -/
def runEvents (cfg : RDConfig) (priorRegistered : Bool) (evs : List Ev) : RDState :=
  evs.foldl (evStep cfg) (initRDState cfg priorRegistered)

/-- A plain, uninterrupted run: the given chunks arrive in order and then the
stream ends.  Non-analysis mode, no prior SIGINT handler. -/
def runChunks (excluded : List (Option XPat)) (chunks : List String) : RDState :=
  runEvents ⟨excluded, false⟩ false (chunks.map Ev.chunk ++ [Ev.streamEnd])

/-- Configuration of the read issued by `getCommandAnalysis` (line 525):
`readData(iterableStream)(writer, { isAnalysis: true })` — no exclusion
patterns, analysis mode. -/
def analysisCfg : RDConfig := ⟨[], true⟩

/-! ## `generateCompletionWithFork` (`src/helpers/fork-ai.ts`, lines 110–196)

The handlers registered on the worker process are embedded as a dispatch over
the sequence of worker events.  `messageHandler` is removed after the first
`done` or `error` message (the `active` flag); the `exit` listener at lines
176–180 is never removed and emits an error on the mock response only when
the exit code is nonzero. -/

/-- Events of the worker process observed by `generateCompletionWithFork`. -/
inductive WorkerEv where
  | wchunk (data : String)
  | wdone
  | werror (message : String)
  | wexit (code : Int)

/-- Events emitted on the mock `IncomingMessage` handed to the caller. -/
inductive MockEv where
  | mdata (s : String)
  | mend
  | merror (message : String)
deriving DecidableEq, Repr

/-- Dispatch of worker events; `active` is whether `messageHandler` is still
attached. -/
def forkDispatch : List WorkerEv → Bool → List MockEv
  | [], _ => []
  | .wchunk s :: evs, true => .mdata s :: forkDispatch evs true
  | .wchunk _ :: evs, false => forkDispatch evs false
  | .wdone :: evs, true => .mend :: forkDispatch evs false
  | .wdone :: evs, false => forkDispatch evs false
  | .werror m :: evs, true => .merror m :: forkDispatch evs false
  | .werror _ :: evs, false => forkDispatch evs false
  | .wexit code :: evs, active =>
    (if code ≠ 0 then [.merror ("AI process exited with code " ++ toString code)] else [])
      ++ forkDispatch evs active

/-- Mock-response events a caller of `generateCompletionWithFork` observes
for a given worker event sequence. -/
def generateCompletionWithForkEvents (evs : List WorkerEv) : List MockEv :=
  forkDispatch evs true

/-- Is a mock event an error event? -/
def isMockError : MockEv → Bool
  | .merror _ => true
  | _ => false

/-! ## Reference definition and concrete fixtures used by the claims -/

/-- Reference (spec-side) description of what a read with NO exclusion
patterns emits, used for the refinement half of the start-of-content claim:
the non-empty content fragments of the `data:`-prefixed payloads that precede
the first sentinel payload.  This follows the wording of the spec; the machine above
follows the source. -/
def specFrags : List String → List String
  | [] => []
  | p :: ps =>
    if containsSub p "[DONE]" then []
    else if startsWithS p "data:" then
      (if parseContent p = "" then [] else [parseContent p]) ++ specFrags ps
    else specFrags ps

/-- All payloads of a chunk sequence, in order. -/
def allPayloads (chunks : List String) : List String :=
  flattenL (chunks.map (fun s => jsSplit s "\n\n"))

/-- A well-formed frame carrying content `"ls"`. -/
def frameLs : String :=
  "data: \x7b\"choices\":[\x7b\"delta\":\x7b\"content\":\"ls\"\x7d\x7d]\x7d\n\n"

/-- A well-formed frame carrying content `" -la"`. -/
def frameLa : String :=
  "data: \x7b\"choices\":[\x7b\"delta\":\x7b\"content\":\" -la\"\x7d\x7d]\x7d\n\n"

/-- The sentinel completion frame. -/
def frameDone : String := "data: [DONE]\n\n"

/-- The end-to-end frame sequence of the scenario in the spec. -/
def c8frames : List String := [frameLs, frameLa, frameDone]

/-- Frames for the parse-failure scenario: a good fragment `A`, a payload
whose remainder is not JSON, a good fragment `B`, then the sentinel. -/
def c2chunks : List String :=
  ["data: \x7b\"choices\":[\x7b\"delta\":\x7b\"content\":\"A\"\x7d\x7d]\x7d\n\n",
   "data: oops\n\n",
   "data: \x7b\"choices\":[\x7b\"delta\":\x7b\"content\":\"B\"\x7d\x7d]\x7d\n\n",
   frameDone]

/-- Frames for the split-pattern scenario: an opening fence starting
emission, then `"ls ``"` and `` "`" `` whose concatenation contains a fence
match although neither fragment does. -/
def c3chunks : List String :=
  ["data: \x7b\"choices\":[\x7b\"delta\":\x7b\"content\":\"```bash\\n\"\x7d\x7d]\x7d\n\n",
   "data: \x7b\"choices\":[\x7b\"delta\":\x7b\"content\":\"ls ``\"\x7d\x7d]\x7d\n\n",
   "data: \x7b\"choices\":[\x7b\"delta\":\x7b\"content\":\"`\"\x7d\x7d]\x7d\n\n",
   frameDone]

/-- A sixteen-line output (each line a distinct three-character token). -/
def sixteenLines : String :=
  "l01\nl02\nl03\nl04\nl05\nl06\nl07\nl08\nl09\nl10\nl11\nl12\nl13\nl14\nl15\nl16"

/-- A concrete command result whose stdout is sixteen lines long. -/
def catResult : CommandResult :=
  { command := "cat notes.txt", exitCode := 0, stdout := sixteenLines,
    stderr := "", timestamp := 0 }

/-- A fixed rendering for timestamps in concrete computations. -/
def fixedTime : Nat → String := fun _ => "12:00:00"

/-- Newline-freedom of a string, stated executably. -/
def noNl (s : String) : Bool := s.toList.all (fun c => !(c = '\n'))

/-- A distinct command result per index, for concrete instantiations. -/
def sampleResult (i : Nat) : CommandResult :=
  { command := "echo " ++ toString i, exitCode := 0, stdout := "", stderr := "",
    timestamp := i }

/-- Invariant: the accumulated output and any settled value are
newline-free. -/
def NoNlInv (σ : RDState) : Prop :=
  noNl σ.data = true ∧ ∀ v, σ.settled = some v → noNl v = true

/-- Invariant of non-analysis runs: the user-stop flag never rises, the
analysis handler is never registered, emission implies a prior detector
match, no writes happen before the detector match, and the promise is
settled — with the accumulated data — exactly when the loop has ended. -/
def NAInv (σ : RDState) : Prop :=
  σ.stoppedByUser = false ∧
  SigHandler.analysis ∉ σ.handlers ∧
  (σ.dataStart = true → σ.matchFired = true) ∧
  (σ.matchFired = false → σ.writes = []) ∧
  ((σ.loopDone = false ∧ σ.settled = none) ∨
    (σ.loopDone = true ∧ σ.settled = some σ.data))

/-! ## Theorems -/

/-! ### History buffer lemmas -/

/-- Inserting on top of a 5-truncation is the 5-truncation of the extended
list. -/
theorem add_take (r : CommandResult) (t : List CommandResult) :
    addToCommandHistory r (t.take MAX_HISTORY_SIZE) = (r :: t).take MAX_HISTORY_SIZE := by
  match t with
  | [] => rfl
  | [a] => rfl
  | [a, b] => rfl
  | [a, b, c] => rfl
  | [a, b, c, d] => rfl
  | a :: b :: c :: d :: e :: rest => rfl

/-- The buffer after any insertion sequence is the most-recent-first
5-truncation of the insertions. -/
theorem histAfter_eq_take (l : List CommandResult) :
    histAfter l = l.reverse.take MAX_HISTORY_SIZE := by
  induction l using List.reverseRecOn with
  | nil => rfl
  | append_singleton xs r ih =>
    unfold histAfter at *
    rw [List.foldl_append, List.foldl_cons, List.foldl_nil, ih, List.reverse_append]
    simpa using add_take r xs.reverse

/-! ### Claim C5 -/

/-- C5: after more insertions than the capacity (5), the history has exactly
capacity entries, namely the last five insertions most-recent-first; an
insertion at capacity drops the last (least recently inserted) entry; and an
insertion never pushes the length beyond the capacity. -/
theorem c5_bounded_history (inserts : List CommandResult) (r r2 : CommandResult)
    (hist hist2 : List CommandResult)
    (hN : MAX_HISTORY_SIZE < inserts.length)
    (hcap : hist.length = MAX_HISTORY_SIZE)
    (hb : hist2.length ≤ MAX_HISTORY_SIZE) :
    (histAfter inserts).length = MAX_HISTORY_SIZE ∧
    histAfter inserts = inserts.reverse.take MAX_HISTORY_SIZE ∧
    addToCommandHistory r hist = (r :: hist).dropLast ∧
    (addToCommandHistory r2 hist2).length ≤ MAX_HISTORY_SIZE := by
  have hmain := histAfter_eq_take inserts
  refine ⟨?_, hmain, ?_, ?_⟩
  · rw [hmain, List.length_take, List.length_reverse]
    unfold MAX_HISTORY_SIZE at *
    omega
  · simp only [addToCommandHistory]
    rw [if_pos]
    simp only [List.length_cons, hcap, MAX_HISTORY_SIZE]
    omega
  · simp only [addToCommandHistory]
    split
    case isTrue hgt =>
      rw [List.length_dropLast]
      simp only [List.length_cons]
      omega
    case isFalse hle =>
      simp only [gt_iff_lt, not_lt, List.length_cons] at hle
      simp only [List.length_cons]
      exact hle

/-- Witness for C5 at six concrete insertions and a concrete buffer of five. -/
theorem c5_bounded_history_witness :
    (MAX_HISTORY_SIZE < ((List.range 6).map sampleResult).length ∧
      ((List.range 5).map sampleResult).length = MAX_HISTORY_SIZE ∧
      ([] : List CommandResult).length ≤ MAX_HISTORY_SIZE) ∧
    ((histAfter ((List.range 6).map sampleResult)).length = MAX_HISTORY_SIZE ∧
      histAfter ((List.range 6).map sampleResult) =
        ((List.range 6).map sampleResult).reverse.take MAX_HISTORY_SIZE ∧
      addToCommandHistory (sampleResult 9) ((List.range 5).map sampleResult) =
        (sampleResult 9 :: (List.range 5).map sampleResult).dropLast ∧
      (addToCommandHistory (sampleResult 8) []).length ≤ MAX_HISTORY_SIZE) :=
  ⟨⟨by decide, by decide, by decide⟩,
    c5_bounded_history ((List.range 6).map sampleResult) (sampleResult 9) (sampleResult 8)
      ((List.range 5).map sampleResult) [] (by decide) (by decide) (by decide)⟩

/-! ### Claim C10 -/

/-- C10: on an empty history, `formatCommandHistoryForAI` returns exactly the
fixed fallback message, which is not the empty string. -/
theorem c10_empty_history_message (fmtTime : Nat → String) :
    formatCommandHistoryForAI fmtTime [] = "No command history available." ∧
    formatCommandHistoryForAI fmtTime [] ≠ "" := by
  constructor
  · rfl
  · intro h
    rw [show formatCommandHistoryForAI fmtTime [] = "No command history available." from rfl]
      at h
    exact absurd h (by decide)

/-! ### Claim C8 -/

/-- C8: the end-to-end scenario of the spec: frames carrying `"ls"` and `" -la"`
then the sentinel, with no exclusion patterns, resolve with accumulated
output exactly `"ls -la"`. -/
theorem c8_end_to_end :
    (runChunks [] c8frames).settled = some "ls -la" := by decide

/-! ### Claim C1 -/

/-- C1 (failing run): in analysis mode with a previously registered SIGINT
handler, a SIGINT delivered while awaiting the next chunk settles the promise
— but the analysis handler is still the registered SIGINT listener, so a
second SIGINT after settlement runs the analysis handler again (writing a
second stopped-message) and never the prior handler.  Restoration only
happens once a further payload arrives (last conjunct). -/
theorem c1_interrupt_leaves_analysis_handler :
    (runEvents analysisCfg true [Ev.sigint, Ev.sigint]).settled = some "" ∧
    (runEvents analysisCfg true [Ev.sigint, Ev.sigint]).handlers = [SigHandler.analysis] ∧
    (runEvents analysisCfg true [Ev.sigint, Ev.sigint]).priorInvocations = 0 ∧
    (runEvents analysisCfg true [Ev.sigint, Ev.sigint]).writes =
      [analysisStoppedMsg, analysisStoppedMsg] ∧
    (runEvents analysisCfg true [Ev.sigint, Ev.chunk "x\n\n", Ev.sigint]).priorInvocations
      = 1 := by
  refine ⟨by decide, by decide, by decide, by decide, by decide⟩

/-! ### Claim C2 -/

/-- C2 (counterexample): with emission started, a payload whose remainder is
not JSON contributes the catch-branch diagnostic to the writer and to the
accumulated output — the run over `c2chunks` writes a fragment starting with
`"Error with JSON.parse"` and does not resolve with the clean `"AB"`. -/
theorem c2_counterexample :
    ((runChunks [] c2chunks).writes.any fun w => startsWithS w "Error with JSON.parse")
      = true ∧
    (runChunks [] c2chunks).settled ≠ some "AB" := by
  refine ⟨by decide, by decide⟩

/-- C2 (amended): a `data:`-prefixed payload whose remainder fails to parse
yields the diagnostic string as its content fragment; the fragment is
accumulated and written once emission has started, and decoding of subsequent
payloads continues (the later fragment `"B"` still arrives). -/
theorem c2_parse_failure_diagnostic (payload : String)
    (_hd : startsWithS payload "data:" = true)
    (hfail : (jsonParse (jsTrim (stripDataMarker payload))).isSome = false) :
    parseContent payload = "Error with JSON.parse and " ++ payload ++ ".\n" ++ jsErrorText ∧
    (runChunks [] c2chunks).settled =
      some ("A" ++ parseContent "data: oops" ++ "B") := by
  constructor
  · unfold parseContent
    cases h2 : jsonParse (jsTrim (stripDataMarker payload)) with
    | none => rfl
    | some v => rw [h2] at hfail; simp at hfail
  · decide

/-- Witness for the amended C2 at the concrete payload `"data: oops"`. -/
theorem c2_parse_failure_diagnostic_witness :
    (startsWithS "data: oops" "data:" = true ∧
      (jsonParse (jsTrim (stripDataMarker "data: oops"))).isSome = false) ∧
    (parseContent "data: oops" =
        "Error with JSON.parse and " ++ "data: oops" ++ ".\n" ++ jsErrorText ∧
      (runChunks [] c2chunks).settled =
        some ("A" ++ parseContent "data: oops" ++ "B")) :=
  ⟨⟨by decide, by decide⟩,
    c2_parse_failure_diagnostic "data: oops" (by decide) (by decide)⟩

/-! ### Claim C3 -/

/-- C3 (counterexample): with `shellCodeExclusions` configured, the fragments
`"ls ``"` and `` "`" `` each survive stripping (neither matches a pattern on
its own), but their concatenation `"ls ```"` — the resolved accumulated
output — contains a match of the configured pattern `/```[a-zA-Z]*/gi`. -/
theorem c3_counterexample :
    (runChunks shellCodeExclusions c3chunks).settled = some "ls ```" ∧
    some fencePattern ∈ shellCodeExclusions ∧
    fencePattern.test "ls ```" = true := by
  refine ⟨by decide, ?_, by decide⟩
  show some fencePattern ∈
    [some (XPat.re fenceNlFind), some fencePattern, some (XPat.lit "\n")]
  exact .tail _ (.head _)

/-! ### Claim C6 -/

/-- C6 (counterexample): a sixteen-line stdout is rendered by the formatter
with the marker `"... (1 more lines) ..."`, yet two input lines (`l08`,
`l09`) are omitted from the rendering — the stated count (total minus the
budget 15) is one short of the lines actually omitted. -/
theorem c6_counterexample :
    trimOutput sixteenLines 15 =
      "l01\nl02\nl03\nl04\nl05\nl06\nl07\n... (1 more lines) ...\nl10\nl11\nl12\nl13\nl14\nl15\nl16" ∧
    containsSub (formatCommandHistoryForAI fixedTime [catResult]) "... (1 more lines) ..."
      = true ∧
    ((linesOf sixteenLines).filter
        (fun l => !(containsSub (trimOutput sixteenLines 15) l))) = ["l08", "l09"] ∧
    ((linesOf sixteenLines).filter
        (fun l => !(containsSub (trimOutput sixteenLines 15) l))).length ≠ 1 := by
  refine ⟨by decide, by decide, by decide, by decide⟩

/-- C6 (amended): for an output longer than the 15-line budget the formatter
keeps the first 7 and the last 7 lines around the elision marker; the
stated count of the marker is the total line count minus 15, which is exactly one
fewer than the number of lines actually omitted (total minus the 14 kept). -/
theorem c6_trim_marker_off_by_one (output : String)
    (h : 15 < (linesOf output).length) :
    trimOutput output 15 =
      joinNl ((linesOf output).take 7 ++
        ["... (" ++ toString ((linesOf output).length - 15) ++ " more lines) ..."] ++
        (linesOf output).drop ((linesOf output).length - 7)) ∧
    (linesOf output).length - (7 + 7) = ((linesOf output).length - 15) + 1 := by
  constructor
  · simp only [trimOutput]
    rw [if_neg (by omega)]
    norm_num
  · omega

/-- Witness for the amended C6 at the sixteen-line output. -/
theorem c6_trim_marker_off_by_one_witness :
    15 < (linesOf sixteenLines).length ∧
    (trimOutput sixteenLines 15 =
      joinNl ((linesOf sixteenLines).take 7 ++
        ["... (" ++ toString ((linesOf sixteenLines).length - 15) ++ " more lines) ..."] ++
        (linesOf sixteenLines).drop ((linesOf sixteenLines).length - 7)) ∧
    (linesOf sixteenLines).length - (7 + 7) = ((linesOf sixteenLines).length - 15) + 1) :=
  ⟨by decide, c6_trim_marker_off_by_one sixteenLines (by decide)⟩

/-! ### Claim C9 -/

/-- C9 (counterexample): a worker exit with code 0 mid-stream synthesizes no
error at all — the caller sees only the chunk delivered before the exit, and
no error event. -/
theorem c9_counterexample :
    generateCompletionWithForkEvents [WorkerEv.wchunk "halfway output", WorkerEv.wexit 0]
      = [MockEv.mdata "halfway output"] ∧
    ((generateCompletionWithForkEvents
        [WorkerEv.wchunk "halfway output", WorkerEv.wexit 0]).any isMockError) = false := by
  refine ⟨by decide, by decide⟩

/-- An exit event with nonzero code always produces the synthesized error on
the mock response, wherever it occurs in the worker event sequence. -/
theorem forkDispatch_exit_emits (pre : List WorkerEv) (active : Bool) (code : Int)
    (h : code ≠ 0) :
    MockEv.merror ("AI process exited with code " ++ toString code) ∈
      forkDispatch (pre ++ [WorkerEv.wexit code]) active := by
  induction pre generalizing active with
  | nil =>
    simp only [List.nil_append, forkDispatch, if_pos h]
    exact List.mem_append_left _ (.head _)
  | cons e evs ih =>
    cases e with
    | wchunk s =>
      cases active with
      | true => exact .tail _ (ih true)
      | false => exact ih false
    | wdone =>
      cases active with
      | true => exact .tail _ (ih false)
      | false => exact ih false
    | werror m =>
      cases active with
      | true => exact .tail _ (ih false)
      | false => exact ih false
    | wexit c =>
      refine List.mem_append_right _ (ih active)

/-- C9 (amended): when the worker exits mid-stream with a NONZERO code, the
waiting caller receives a synthesized error carrying that exit code; a zero
exit code synthesizes nothing (see the counterexample). -/
theorem c9_nonzero_exit_error (pre : List WorkerEv) (code : Int) (h : code ≠ 0) :
    MockEv.merror ("AI process exited with code " ++ toString code) ∈
      generateCompletionWithForkEvents (pre ++ [WorkerEv.wexit code]) :=
  forkDispatch_exit_emits pre true code h

/-- Witness for the amended C9 at exit code 1 after one chunk. -/
theorem c9_nonzero_exit_error_witness :
    ((1 : Int) ≠ 0) ∧
    MockEv.merror ("AI process exited with code " ++ toString (1 : Int)) ∈
      generateCompletionWithForkEvents ([WorkerEv.wchunk "x"] ++ [WorkerEv.wexit 1]) :=
  ⟨by decide, c9_nonzero_exit_error [WorkerEv.wchunk "x"] 1 (by decide)⟩

/-! ### Newline-freedom of the accumulated output (towards C3) -/

/-- Round-trip of `List.asString`. -/
theorem toList_asString (l : List Char) : (List.asString l).toList = l := rfl

/-- Removing all matches of a single-character literal removes every
occurrence of that character. -/
theorem removeMatchesF_single_char (x : Char) (fuel : Nat) (cs : List Char)
    (h : cs.length ≤ fuel) : x ∉ removeMatchesF (litFind [x]) fuel cs := by
  induction fuel generalizing cs with
  | zero =>
    have hnil : cs = [] := List.length_eq_zero.mp (Nat.le_zero.mp h)
    subst hnil
    simp [removeMatchesF]
  | succ fuel ih =>
    cases cs with
    | nil => simp [removeMatchesF]
    | cons c cs2 =>
      have hlen : cs2.length ≤ fuel := by
        simp only [List.length_cons] at h
        omega
      by_cases hc : x = c
      · subst hc
        have hf : litFind [x] (x :: cs2) = some 1 := by
          simp [litFind, List.isPrefixOf]
        rw [show removeMatchesF (litFind [x]) (fuel + 1) (x :: cs2)
              = removeMatchesF (litFind [x]) fuel cs2 by
            simp [removeMatchesF, hf]]
        exact ih cs2 hlen
      · have hf : litFind [x] (c :: cs2) = none := by
          simp [litFind, List.isPrefixOf]
          exact fun he => absurd he hc
        rw [show removeMatchesF (litFind [x]) (fuel + 1) (c :: cs2)
              = c :: removeMatchesF (litFind [x]) fuel cs2 by
            simp [removeMatchesF, hf]]
        intro hx
        rcases List.mem_cons.mp hx with h1 | h2
        · exact hc h1
        · exact ih cs2 hlen h2

/-- Stripping the literal `'\n'` pattern leaves no newline. -/
theorem strip_nl_noNl (s : String) : '\n' ∉ (XPat.strip (.lit "\n") s).toList := by
  have hred : XPat.strip (.lit "\n") s
      = (removeMatchesF (litFind ['\n']) s.toList.length s.toList).asString := rfl
  rw [hred, toList_asString]
  exact removeMatchesF_single_char '\n' _ _ (le_refl _)

/-- Predicate `noNl` unfolded to non-membership. -/
theorem noNl_iff (s : String) : noNl s = true ↔ '\n' ∉ s.toList := by
  unfold noNl
  rw [List.all_eq_true]
  constructor
  · intro h hmem
    have := h _ hmem
    simp at this
  · intro h c hc
    have : ¬ c = '\n' := fun he => h (he ▸ hc)
    simpa using this

/-- Stripping with `shellCodeExclusions` always yields newline-free text:
the literal `'\n'` pattern is applied last. -/
theorem stripShell_noNl (s : String) :
    noNl (stripRegexPatterns s shellCodeExclusions) = true := by
  have hfold : stripRegexPatterns s shellCodeExclusions
      = XPat.strip (.lit "\n")
          (XPat.strip fencePattern (XPat.strip (.re fenceNlFind) s)) := by
    simp [stripRegexPatterns, shellCodeExclusions, patTruthy, fencePattern]
  rw [hfold, noNl_iff]
  exact strip_nl_noNl _

/-- Concatenation of strings splits on `toList`. -/
theorem toList_append_str (a b : String) : (a ++ b).toList = a.toList ++ b.toList := by
  cases a
  cases b
  rfl

/-- Predicate `noNl` is preserved by concatenation. -/
theorem noNl_append (a b : String) (ha : noNl a = true) (hb : noNl b = true) :
    noNl (a ++ b) = true := by
  rw [noNl_iff] at *
  rw [toList_append_str]
  intro h
  rcases List.mem_append.mp h with h1 | h2
  · exact ha h1
  · exact hb h2

/-- Helper `cleanupState` only touches the listener list. -/
theorem cleanupState_fields (cfg : RDConfig) (σ : RDState) :
    (cleanupState cfg σ).data = σ.data ∧ (cleanupState cfg σ).settled = σ.settled ∧
    (cleanupState cfg σ).writes = σ.writes ∧ (cleanupState cfg σ).loopDone = σ.loopDone ∧
    (cleanupState cfg σ).stopTextStream = σ.stopTextStream ∧
    (cleanupState cfg σ).stoppedByUser = σ.stoppedByUser := by
  unfold cleanupState
  split <;> [skip; exact ⟨rfl, rfl, rfl, rfl, rfl, rfl⟩]
  split <;> exact ⟨rfl, rfl, rfl, rfl, rfl, rfl⟩

/-- Helper `resolveWith` preserves the invariant when the value resolved is
newline-free. -/
theorem resolveWith_noNl (σ : RDState) (v : String) (hσ : NoNlInv σ)
    (hv : noNl v = true) : NoNlInv (resolveWith σ v) := by
  unfold resolveWith
  cases hs : σ.settled with
  | some w => exact hσ
  | none =>
    refine ⟨hσ.1, ?_⟩
    intro u hu
    simp only at hu
    cases hu
    exact hv

/-- One payload step preserves newline-freedom when the shell exclusions are
configured. -/
theorem payloadStep_noNl (cfg : RDConfig) (hexc : cfg.excluded = shellCodeExclusions)
    (σ : RDState) (p : String) (hσ : NoNlInv σ) :
    NoNlInv (payloadStep cfg σ p).1 := by
  have hstrip : noNl (stripRegexPatterns (parseContent p) cfg.excluded) = true := by
    rw [hexc]; exact stripShell_noNl _
  obtain ⟨hd, hs⟩ := hσ
  have hcfin := cleanupState_fields cfg { σ with dataStart := false }
  unfold payloadStep
  split
  case isTrue h1 =>
    dsimp only
    split
    case isTrue h2 =>
      refine resolveWith_noNl _ _ ⟨?_, ?_⟩ ?_
      · show noNl (cleanupState cfg { σ with dataStart := false }).data = true
        rw [hcfin.1]; exact hd
      · intro v hv
        have hv2 : (cleanupState cfg { σ with dataStart := false }).settled = some v := hv
        rw [hcfin.2.1] at hv2
        exact hs v hv2
      · show noNl (cleanupState cfg { σ with dataStart := false }).data = true
        rw [hcfin.1]; exact hd
    case isFalse h2 =>
      refine resolveWith_noNl _ _ ⟨?_, ?_⟩ ?_
      · show noNl (cleanupState cfg { σ with dataStart := false }).data = true
        rw [hcfin.1]; exact hd
      · intro v hv
        have hv2 : (cleanupState cfg { σ with dataStart := false }).settled = some v := hv
        rw [hcfin.2.1] at hv2
        exact hs v hv2
      · show noNl (cleanupState cfg { σ with dataStart := false }).data = true
        rw [hcfin.1]; exact hd
  case isFalse h1 =>
    split
    case isTrue h2 =>
      dsimp only
      repeat' split
      all_goals
        first
          | exact ⟨hd, hs⟩
          | exact ⟨noNl_append _ _ hd hstrip, hs⟩
    case isFalse h2 => exact ⟨hd, hs⟩

/-- The payload loop preserves newline-freedom. -/
theorem chunkPayloads_noNl (cfg : RDConfig) (hexc : cfg.excluded = shellCodeExclusions)
    (ps : List String) (σ : RDState) (hσ : NoNlInv σ) :
    NoNlInv (chunkPayloads cfg σ ps) := by
  induction ps generalizing σ with
  | nil => exact hσ
  | cons p ps ih =>
    have hstep := payloadStep_noNl cfg hexc σ p hσ
    unfold chunkPayloads
    cases hout : payloadStep cfg σ p with
    | mk σ2 out =>
      rw [hout] at hstep
      cases out with
      | finished => exact ⟨hstep.1, hstep.2⟩
      | breakChunk => exact hstep
      | continueNext => exact ih σ2 hstep

/-- A SIGINT listener body preserves newline-freedom. -/
theorem sigHandlerRun_noNl (σ : RDState) (h : SigHandler) (hσ : NoNlInv σ) :
    NoNlInv (sigHandlerRun σ h) := by
  cases h with
  | prior => exact ⟨hσ.1, hσ.2⟩
  | analysis =>
    exact resolveWith_noNl _ _ ⟨hσ.1, hσ.2⟩ hσ.1

/-- SIGINT dispatch preserves newline-freedom. -/
theorem sigintStep_noNl (σ : RDState) (hσ : NoNlInv σ) : NoNlInv (sigintStep σ) := by
  unfold sigintStep
  generalize σ.handlers = hs
  induction hs generalizing σ with
  | nil => exact hσ
  | cons h hs ih => exact ih _ (sigHandlerRun_noNl σ h hσ)

/-- Every event preserves newline-freedom (shell exclusions configured). -/
theorem evStep_noNl (cfg : RDConfig) (hexc : cfg.excluded = shellCodeExclusions)
    (σ : RDState) (e : Ev) (hσ : NoNlInv σ) : NoNlInv (evStep cfg σ e) := by
  cases e with
  | chunk s =>
    show NoNlInv (if σ.loopDone = true then σ else chunkPayloads cfg σ (jsSplit s "\n\n"))
    split
    · exact hσ
    · exact chunkPayloads_noNl cfg hexc _ σ hσ
  | keypress n =>
    show NoNlInv (keypressStep σ n)
    unfold keypressStep
    split
    · exact ⟨hσ.1, hσ.2⟩
    · exact hσ
  | sigint => exact sigintStep_noNl σ hσ
  | streamEnd =>
    show NoNlInv (streamEndStep cfg σ)
    unfold streamEndStep
    split
    · exact hσ
    · have hc := cleanupState_fields cfg { σ with loopDone := true }
      refine resolveWith_noNl _ _ ⟨?_, ?_⟩ ?_
      · rw [hc.1]; exact hσ.1
      · intro v hv
        rw [hc.2.1] at hv
        exact hσ.2 v hv
      · rw [hc.1]; exact hσ.1

/-- A whole run preserves newline-freedom, from any newline-free start. -/
theorem runEvents_noNl (cfg : RDConfig) (hexc : cfg.excluded = shellCodeExclusions)
    (prior : Bool) (evs : List Ev) :
    NoNlInv (runEvents cfg prior evs) := by
  unfold runEvents
  have hdata : (initRDState cfg prior).data = "" := by
    by_cases hA : cfg.isAnalysis = true <;> simp [initRDState, hA]
  have hsettled : (initRDState cfg prior).settled = none := by
    by_cases hA : cfg.isAnalysis = true <;> simp [initRDState, hA]
  have hinit : NoNlInv (initRDState cfg prior) :=
    ⟨by rw [hdata]; decide, fun v hv => by rw [hsettled] at hv; cases hv⟩
  generalize initRDState cfg prior = σ0 at hinit
  induction evs generalizing σ0 with
  | nil => exact hinit
  | cons e evs ih => exact ih _ (evStep_noNl cfg hexc σ0 e hinit)

/-! ### Claim C3 (amended theorem) -/

/-- C3 (amended): the guarantee that survives is for the literal `'\n'`
pattern, which is applied last to every fragment: whatever string a read with
`shellCodeExclusions` resolves with contains no newline.  Regex exclusion
patterns are stripped only within a fragment, so a match split across
adjacent fragments can survive in the accumulated output (see the
counterexample). -/
theorem c3_literal_newline_absent (a prior : Bool) (evs : List Ev) (v : String)
    (h : (runEvents ⟨shellCodeExclusions, a⟩ prior evs).settled = some v) :
    noNl v = true :=
  (runEvents_noNl ⟨shellCodeExclusions, a⟩ rfl prior evs).2 v h

/-- Witness for the amended C3 at the concrete `c3chunks` run. -/
theorem c3_literal_newline_absent_witness :
    (runEvents ⟨shellCodeExclusions, false⟩ false
        (c3chunks.map Ev.chunk ++ [Ev.streamEnd])).settled = some "ls ```" ∧
    noNl "ls ```" = true :=
  ⟨by decide,
    c3_literal_newline_absent false false (c3chunks.map Ev.chunk ++ [Ev.streamEnd])
      "ls ```" (by decide)⟩

/-! ### Non-analysis runs: invariants for the emission-gating and stop claims -/

/-- The `cleanup` closure is the identity outside analysis mode. -/
theorem cleanupState_nonanalysis (cfg : RDConfig) (hna : cfg.isAnalysis = false)
    (σ : RDState) : cleanupState cfg σ = σ := by
  unfold cleanupState
  rw [hna]
  simp

/-- One payload step preserves `NAInv` while the loop runs, and
characterizes settlement: a `finished` outcome resolves with the unchanged
accumulated data, any other outcome leaves the promise pending. -/
theorem payloadStep_NA (cfg : RDConfig) (hna : cfg.isAnalysis = false)
    (σ : RDState) (p : String)
    (hsu : σ.stoppedByUser = false)
    (hh : SigHandler.analysis ∉ σ.handlers)
    (hdm : σ.dataStart = true → σ.matchFired = true)
    (hmw : σ.matchFired = false → σ.writes = [])
    (hst : σ.settled = none) :
    ((payloadStep cfg σ p).1.stoppedByUser = false ∧
      SigHandler.analysis ∉ (payloadStep cfg σ p).1.handlers ∧
      ((payloadStep cfg σ p).1.dataStart = true → (payloadStep cfg σ p).1.matchFired = true) ∧
      ((payloadStep cfg σ p).1.matchFired = false → (payloadStep cfg σ p).1.writes = [])) ∧
    ((payloadStep cfg σ p).2 = POut.finished →
      (payloadStep cfg σ p).1.settled = some σ.data ∧
      (payloadStep cfg σ p).1.data = σ.data) ∧
    ((payloadStep cfg σ p).2 ≠ POut.finished →
      (payloadStep cfg σ p).1.settled = none ∧
      (payloadStep cfg σ p).1.stopTextStream = σ.stopTextStream ∧
      (payloadStep cfg σ p).1.loopDone = σ.loopDone) := by
  unfold payloadStep
  split
  case isTrue h1 =>
    dsimp only
    rw [cleanupState_nonanalysis cfg hna]
    rw [if_neg (show ¬ (({ σ with dataStart := false } : RDState).stoppedByUser = true) by
      simp [hsu])]
    unfold resolveWith
    dsimp only
    rw [hst]
    refine ⟨⟨hsu, hh, ?_, ?_⟩, ?_, ?_⟩
    · intro hfalse
      exact absurd hfalse (by simp)
    · intro hm
      exact hmw hm
    · intro _
      exact ⟨rfl, rfl⟩
    · intro hne
      exact absurd rfl hne
  case isFalse h1 =>
    split
    case isTrue h2 =>
      dsimp only
      split
      case isTrue hnds =>
        split
        case isTrue hbm =>
          split
          case isTrue hbrk =>
            refine ⟨⟨hsu, hh, fun _ => rfl, ?_⟩, ?_, fun _ => ⟨hst, rfl, rfl⟩⟩
            · intro hm
              exact absurd hm (by simp)
            · intro hfin
              exact absurd hfin (by simp)
          case isFalse hbrk =>
            split
            case isTrue hemit =>
              refine ⟨⟨hsu, hh, fun _ => rfl, ?_⟩, ?_, fun _ => ⟨hst, rfl, rfl⟩⟩
              · intro hm
                exact absurd hm (by simp)
              · intro hfin
                exact absurd hfin (by simp)
            case isFalse hemit =>
              refine ⟨⟨hsu, hh, fun _ => rfl, ?_⟩, ?_, fun _ => ⟨hst, rfl, rfl⟩⟩
              · intro hm
                exact absurd hm (by simp)
              · intro hfin
                exact absurd hfin (by simp)
        case isFalse hbm =>
          split
          case isTrue hbrk =>
            exact absurd hbrk (by simp)
          case isFalse hbrk =>
            split
            case isTrue hemit =>
              have h3 : σ.dataStart = true ∧ ¬(parseContent p = "") := by simpa using hemit
              have hnd2 : σ.dataStart = false := by simpa using hnds
              rw [h3.1] at hnd2
              cases hnd2
            case isFalse hemit =>
              refine ⟨⟨hsu, hh, ?_, ?_⟩, ?_, fun _ => ⟨hst, rfl, rfl⟩⟩
              · intro hds
                exact hdm (by simpa using hds)
              · intro hm
                exact hmw (by simpa using hm)
              · intro hfin
                exact absurd hfin (by simp)
      case isFalse hnds =>
        have hds : σ.dataStart = true := by
          simpa using hnds
        split
        case isTrue hbrk =>
          exact absurd hbrk (by simp)
        case isFalse hbrk =>
          split
          case isTrue hemit =>
            refine ⟨⟨hsu, hh, fun _ => hdm hds, ?_⟩, ?_, fun _ => ⟨hst, rfl, rfl⟩⟩
            · intro hm
              have hm2 : σ.matchFired = false := hm
              exact absurd (hdm hds) (by simp [hm2])
            · intro hfin
              exact absurd hfin (by simp)
          case isFalse hemit =>
            refine ⟨⟨hsu, hh, hdm, hmw⟩, ?_, fun _ => ⟨hst, rfl, rfl⟩⟩
            intro hfin
            exact absurd hfin (by simp)
    case isFalse h2 =>
      refine ⟨⟨hsu, hh, hdm, hmw⟩, ?_, fun _ => ⟨hst, rfl, rfl⟩⟩
      intro hfin
      exact absurd hfin (by simp)

/-- A payload observed with the sentinel or the stop flag always takes the
`return` path. -/
theorem payloadStep_out_finished (cfg : RDConfig) (σ : RDState) (p : String)
    (h : (containsSub p "[DONE]" || σ.stopTextStream) = true) :
    (payloadStep cfg σ p).2 = POut.finished := by
  unfold payloadStep
  rw [if_pos h]

/-- The payload loop preserves the non-analysis invariant. -/
theorem chunkPayloads_NAInv (cfg : RDConfig) (hna : cfg.isAnalysis = false)
    (ps : List String) (σ : RDState)
    (hsu : σ.stoppedByUser = false)
    (hh : SigHandler.analysis ∉ σ.handlers)
    (hdm : σ.dataStart = true → σ.matchFired = true)
    (hmw : σ.matchFired = false → σ.writes = [])
    (hld : σ.loopDone = false) (hst : σ.settled = none) :
    NAInv (chunkPayloads cfg σ ps) := by
  induction ps generalizing σ with
  | nil => exact ⟨hsu, hh, hdm, hmw, Or.inl ⟨hld, hst⟩⟩
  | cons p ps ih =>
    have hNA := payloadStep_NA cfg hna σ p hsu hh hdm hmw hst
    unfold chunkPayloads
    cases hout : payloadStep cfg σ p with
    | mk σ2 out =>
      rw [hout] at hNA
      cases out with
      | finished =>
        have hfin := hNA.2.1 rfl
        exact ⟨hNA.1.1, hNA.1.2.1, hNA.1.2.2.1, hNA.1.2.2.2,
          Or.inr ⟨rfl, by show σ2.settled = some σ2.data; rw [hfin.1, hfin.2]⟩⟩
      | breakChunk =>
        have hnf := hNA.2.2 (by simp)
        exact ⟨hNA.1.1, hNA.1.2.1, hNA.1.2.2.1, hNA.1.2.2.2,
          Or.inl ⟨by rw [hnf.2.2]; exact hld, hnf.1⟩⟩
      | continueNext =>
        have hnf := hNA.2.2 (by simp)
        exact ih σ2 hNA.1.1 hNA.1.2.1 hNA.1.2.2.1 hNA.1.2.2.2
          (by rw [hnf.2.2]; exact hld) hnf.1

/-- With the stop flag already raised, the first payload of the next chunk
resolves with the data accumulated so far, unchanged. -/
theorem chunkPayloads_stopped (cfg : RDConfig) (hna : cfg.isAnalysis = false)
    (σ : RDState) (p : String) (ps : List String)
    (hsu : σ.stoppedByUser = false)
    (hh : SigHandler.analysis ∉ σ.handlers)
    (hdm : σ.dataStart = true → σ.matchFired = true)
    (hmw : σ.matchFired = false → σ.writes = [])
    (hst : σ.settled = none) (hstop : σ.stopTextStream = true) :
    (chunkPayloads cfg σ (p :: ps)).settled = some σ.data ∧
    (chunkPayloads cfg σ (p :: ps)).data = σ.data ∧
    (chunkPayloads cfg σ (p :: ps)).loopDone = true := by
  have hfin := payloadStep_out_finished cfg σ p (by simp [hstop])
  have hNA := payloadStep_NA cfg hna σ p hsu hh hdm hmw hst
  unfold chunkPayloads
  cases hout : payloadStep cfg σ p with
  | mk σ2 out =>
    rw [hout] at hfin hNA
    cases out with
    | finished =>
      have h2 := hNA.2.1 rfl
      exact ⟨h2.1, h2.2, rfl⟩
    | breakChunk => cases hfin
    | continueNext => cases hfin

/-- Dispatching a SIGINT to a listener list without the analysis handler only
bumps the prior-invocation counter. -/
theorem sigintFold_prior (hs : List SigHandler) (σ : RDState)
    (hh : SigHandler.analysis ∉ hs) :
    hs.foldl sigHandlerRun σ = { σ with priorInvocations := σ.priorInvocations + hs.length } := by
  induction hs generalizing σ with
  | nil => simp
  | cons h t ih =>
    cases h with
    | analysis => exact absurd (List.mem_cons_self _ _) hh
    | prior =>
      rw [List.foldl_cons]
      have hh2 : SigHandler.analysis ∉ t := fun hm => hh (List.mem_cons_of_mem _ hm)
      rw [show sigHandlerRun σ .prior
            = { σ with priorInvocations := σ.priorInvocations + 1 } from rfl]
      rw [ih _ hh2]
      simp only [List.length_cons]
      congr 1
      omega

/-- Every event preserves the non-analysis invariant. -/
theorem evStep_NA (cfg : RDConfig) (hna : cfg.isAnalysis = false)
    (σ : RDState) (e : Ev) (hσ : NAInv σ) : NAInv (evStep cfg σ e) := by
  obtain ⟨hsu, hh, hdm, hmw, hdisj⟩ := hσ
  cases e with
  | chunk s =>
    show NAInv (if σ.loopDone = true then σ else chunkPayloads cfg σ (jsSplit s "\n\n"))
    split
    case isTrue hld => exact ⟨hsu, hh, hdm, hmw, hdisj⟩
    case isFalse hld =>
      have hld2 : σ.loopDone = false := by simpa using hld
      rcases hdisj with ⟨_, hst⟩ | ⟨hl, _⟩
      · exact chunkPayloads_NAInv cfg hna _ σ hsu hh hdm hmw hld2 hst
      · rw [hld2] at hl; cases hl
  | keypress n =>
    show NAInv (keypressStep σ n)
    unfold keypressStep
    split
    · exact ⟨hsu, hh, hdm, hmw, by simpa using hdisj⟩
    · exact ⟨hsu, hh, hdm, hmw, hdisj⟩
  | sigint =>
    show NAInv (sigintStep σ)
    unfold sigintStep
    rw [sigintFold_prior σ.handlers σ hh]
    exact ⟨hsu, hh, hdm, hmw, by simpa using hdisj⟩
  | streamEnd =>
    show NAInv (streamEndStep cfg σ)
    unfold streamEndStep
    split
    case isTrue hld => exact ⟨hsu, hh, hdm, hmw, hdisj⟩
    case isFalse hld =>
      have hld2 : σ.loopDone = false := by simpa using hld
      rcases hdisj with ⟨_, hst⟩ | ⟨hl, _⟩
      · rw [cleanupState_nonanalysis cfg hna]
        unfold resolveWith
        dsimp only
        rw [hst]
        exact ⟨hsu, hh, hdm, hmw, Or.inr ⟨rfl, rfl⟩⟩
      · rw [hld2] at hl; cases hl

/-- After the loop has ended, no event changes the data, the settled value,
the loop flag, the listener list or the user-stop flag (non-analysis). -/
theorem evStep_frozen (cfg : RDConfig)
    (σ : RDState) (e : Ev) (hld : σ.loopDone = true)
    (hh : SigHandler.analysis ∉ σ.handlers) :
    (evStep cfg σ e).data = σ.data ∧ (evStep cfg σ e).settled = σ.settled ∧
    (evStep cfg σ e).loopDone = true ∧
    SigHandler.analysis ∉ (evStep cfg σ e).handlers := by
  cases e with
  | chunk s =>
    have hred : evStep cfg σ (Ev.chunk s) = σ := by
      show (if σ.loopDone = true then σ else chunkPayloads cfg σ (jsSplit s "\n\n")) = σ
      rw [if_pos hld]
    rw [hred]
    exact ⟨rfl, rfl, hld, hh⟩
  | keypress n =>
    show (keypressStep σ n).data = σ.data ∧ (keypressStep σ n).settled = σ.settled ∧
      (keypressStep σ n).loopDone = true ∧ SigHandler.analysis ∉ (keypressStep σ n).handlers
    unfold keypressStep
    split
    · exact ⟨rfl, rfl, hld, hh⟩
    · exact ⟨rfl, rfl, hld, hh⟩
  | sigint =>
    show (sigintStep σ).data = σ.data ∧ (sigintStep σ).settled = σ.settled ∧
      (sigintStep σ).loopDone = true ∧ SigHandler.analysis ∉ (sigintStep σ).handlers
    unfold sigintStep
    rw [sigintFold_prior σ.handlers σ hh]
    exact ⟨rfl, rfl, hld, hh⟩
  | streamEnd =>
    have hred : evStep cfg σ Ev.streamEnd = σ := by
      show streamEndStep cfg σ = σ
      unfold streamEndStep
      rw [if_pos hld]
    rw [hred]
    exact ⟨rfl, rfl, hld, hh⟩

/-- Folding further events over a finished state leaves data and settlement
untouched. -/
theorem foldl_frozen (cfg : RDConfig)
    (evs : List Ev) (σ : RDState) (hld : σ.loopDone = true)
    (hh : SigHandler.analysis ∉ σ.handlers) :
    (evs.foldl (evStep cfg) σ).data = σ.data ∧
    (evs.foldl (evStep cfg) σ).settled = σ.settled := by
  induction evs generalizing σ with
  | nil => exact ⟨rfl, rfl⟩
  | cons e evs ih =>
    have hf := evStep_frozen cfg σ e hld hh
    rw [List.foldl_cons]
    have := ih (evStep cfg σ e) hf.2.2.1 hf.2.2.2
    exact ⟨by rw [this.1, hf.1], by rw [this.2, hf.2.1]⟩

/-- The initial state of a non-analysis run satisfies the invariant. -/
theorem initRDState_NA (cfg : RDConfig) (hna : cfg.isAnalysis = false) (prior : Bool) :
    NAInv (initRDState cfg prior) := by
  unfold initRDState
  rw [hna]
  simp only [Bool.false_eq_true, if_false]
  refine ⟨rfl, ?_, ?_, ?_, Or.inl ⟨rfl, rfl⟩⟩
  · cases prior <;> simp
  · intro h; cases h
  · intro _; rfl

/-- Whole non-analysis runs satisfy the invariant. -/
theorem runEvents_NA (cfg : RDConfig) (hna : cfg.isAnalysis = false)
    (prior : Bool) (evs : List Ev) : NAInv (runEvents cfg prior evs) := by
  unfold runEvents
  have hinit := initRDState_NA cfg hna prior
  generalize initRDState cfg prior = σ0 at hinit
  induction evs generalizing σ0 with
  | nil => exact hinit
  | cons e evs ih => exact ih _ (evStep_NA cfg hna σ0 e hinit)

/-- The splitter never returns an empty list (JS `split` yields at least one
piece). -/
theorem splitSepF_ne_nil (sep : List Char) (fuel : Nat) (acc cs : List Char) :
    splitSepF sep fuel acc cs ≠ [] := by
  induction fuel generalizing acc cs with
  | zero => cases cs <;> simp [splitSepF]
  | succ fuel ih =>
    cases cs with
    | nil => simp [splitSepF]
    | cons c cs2 =>
      unfold splitSepF
      split
      · simp
      · exact ih _ _

/-- Helper `jsSplit` never returns an empty list. -/
theorem jsSplit_ne_nil (s sep : String) : jsSplit s sep ≠ [] := by
  unfold jsSplit
  intro h
  rw [List.map_eq_nil_iff] at h
  exact splitSepF_ne_nil sep.toList (s.toList.length + 1) [] s.toList h

/-- Pressing `q` raises the stop flag. -/
theorem keypressStep_q (σ : RDState) :
    keypressStep σ "q" = { σ with stopTextStream := true } := by
  unfold keypressStep
  rw [if_pos (by decide)]

/-! ### Claim C7 -/

/-- C7: a stopping keypress between chunks resolves the read, without any
exception path, with exactly the text accumulated from the chunks processed
before the stop flag was observed at the next payload boundary — nothing
from the later chunks is included.  (Stated for any exclusion configuration
and any prior-handler setting, in normal — non-analysis — mode.) -/
theorem c7_keypress_stop (xs : List (Option XPat)) (prior : Bool) (c1 c2 : List String) :
    (runEvents ⟨xs, false⟩ prior
        (c1.map Ev.chunk ++ [Ev.keypress "q"] ++ c2.map Ev.chunk ++ [Ev.streamEnd])).settled
      = some ((runEvents ⟨xs, false⟩ prior (c1.map Ev.chunk)).data) := by
  have hna : (⟨xs, false⟩ : RDConfig).isAnalysis = false := rfl
  have hsplit : runEvents ⟨xs, false⟩ prior
      (c1.map Ev.chunk ++ [Ev.keypress "q"] ++ c2.map Ev.chunk ++ [Ev.streamEnd])
      = (c2.map Ev.chunk ++ [Ev.streamEnd]).foldl (evStep ⟨xs, false⟩)
          (evStep ⟨xs, false⟩ (runEvents ⟨xs, false⟩ prior (c1.map Ev.chunk))
            (Ev.keypress "q")) := by
    unfold runEvents
    simp only [List.foldl_append, List.foldl_cons, List.foldl_nil]
  rw [hsplit]
  have hinv1 := runEvents_NA ⟨xs, false⟩ hna prior (c1.map Ev.chunk)
  obtain ⟨hsu, hh, hdm, hmw, hdisj⟩ := hinv1
  rcases hdisj with ⟨hld, hst⟩ | ⟨hld, hst⟩
  · -- the loop is still running when the key is pressed
    have hq := keypressStep_q (runEvents ⟨xs, false⟩ prior (c1.map Ev.chunk))
    have hq2 : evStep ⟨xs, false⟩ (runEvents ⟨xs, false⟩ prior (c1.map Ev.chunk))
        (Ev.keypress "q")
        = { runEvents ⟨xs, false⟩ prior (c1.map Ev.chunk) with stopTextStream := true } := hq
    rw [hq2]
    set σ1 := runEvents ⟨xs, false⟩ prior (c1.map Ev.chunk) with hσ1
    set σ2 : RDState := { σ1 with stopTextStream := true } with hσ2
    have hNA2 : NAInv σ2 := ⟨hsu, hh, hdm, hmw, Or.inl ⟨hld, hst⟩⟩
    cases c2 with
    | nil =>
      show ([Ev.streamEnd].foldl (evStep ⟨xs, false⟩) σ2).settled = some σ1.data
      rw [List.foldl_cons, List.foldl_nil]
      show (streamEndStep ⟨xs, false⟩ σ2).settled = some σ1.data
      unfold streamEndStep
      rw [if_neg (by show ¬ σ2.loopDone = true; rw [show σ2.loopDone = σ1.loopDone from rfl, hld]; simp)]
      rw [cleanupState_nonanalysis _ hna]
      unfold resolveWith
      dsimp only
      rw [show σ2.settled = σ1.settled from rfl, hst]
    | cons c cs =>
      rw [show (c :: cs).map Ev.chunk ++ [Ev.streamEnd]
            = Ev.chunk c :: (cs.map Ev.chunk ++ [Ev.streamEnd]) by simp]
      rw [List.foldl_cons]
      have hchunk : evStep ⟨xs, false⟩ σ2 (Ev.chunk c)
          = chunkPayloads ⟨xs, false⟩ σ2 (jsSplit c "\n\n") := by
        show (if σ2.loopDone = true then σ2 else chunkPayloads ⟨xs, false⟩ σ2 (jsSplit c "\n\n"))
            = chunkPayloads ⟨xs, false⟩ σ2 (jsSplit c "\n\n")
        rw [if_neg (by rw [show σ2.loopDone = σ1.loopDone from rfl, hld]; simp)]
      rw [hchunk]
      cases hsp : jsSplit c "\n\n" with
      | nil => exact absurd hsp (jsSplit_ne_nil c "\n\n")
      | cons p ps =>
        have hstopped := chunkPayloads_stopped ⟨xs, false⟩ hna σ2 p ps hsu hh hdm hmw hst rfl
        have hNA3 := evStep_NA ⟨xs, false⟩ hna σ2 (Ev.chunk c) hNA2
        rw [hchunk, hsp] at hNA3
        have hfrozen := foldl_frozen ⟨xs, false⟩ (cs.map Ev.chunk ++ [Ev.streamEnd])
          (chunkPayloads ⟨xs, false⟩ σ2 (p :: ps)) hstopped.2.2 hNA3.2.1
        rw [hfrozen.2, hstopped.1]
  · -- the loop had already ended: everything afterwards is frozen
    have hfr1 := evStep_frozen ⟨xs, false⟩ (runEvents ⟨xs, false⟩ prior (c1.map Ev.chunk))
      (Ev.keypress "q") hld hh
    have hfr2 := foldl_frozen ⟨xs, false⟩ (c2.map Ev.chunk ++ [Ev.streamEnd]) _
      hfr1.2.2.1 hfr1.2.2.2
    rw [hfr2.2, hfr1.2.1, hst]

/-! ### Refinement of emission to the spec description (towards C4) -/

/-- A sentinel (or stop-flagged) payload leaves the writes untouched in a
non-analysis run. -/
theorem payloadStep_finished_writes (cfg : RDConfig) (hna : cfg.isAnalysis = false)
    (σ : RDState) (p : String) (hsu : σ.stoppedByUser = false)
    (h : (containsSub p "[DONE]" || σ.stopTextStream) = true) :
    (payloadStep cfg σ p).1.writes = σ.writes ∧
    (payloadStep cfg σ p).2 = POut.finished ∧
    (payloadStep cfg σ p).1.stopTextStream = σ.stopTextStream ∧
    (payloadStep cfg σ p).1.stoppedByUser = false := by
  unfold payloadStep
  rw [if_pos h]
  dsimp only
  rw [cleanupState_nonanalysis cfg hna]
  rw [if_neg (show ¬ (({ σ with dataStart := false } : RDState).stoppedByUser = true) by
    simp [hsu])]
  unfold resolveWith
  dsimp only
  cases hs : σ.settled with
  | some w => exact ⟨rfl, rfl, rfl, hsu⟩
  | none => exact ⟨rfl, rfl, rfl, hsu⟩

/-- A payload that is neither the sentinel nor data-prefixed is skipped. -/
theorem payloadStep_skip (cfg : RDConfig) (σ : RDState) (p : String)
    (h1 : (containsSub p "[DONE]" || σ.stopTextStream) = false)
    (h2 : startsWithS p "data:" = false) :
    payloadStep cfg σ p = (σ, POut.continueNext) := by
  unfold payloadStep
  rw [if_neg (by simp [h1]), if_neg (by simp [h2])]

/-- A data payload with no exclusion patterns configured: the fragment is
emitted exactly when non-empty, nothing else changes observably. -/
theorem payloadStep_nilExc (σ : RDState) (p : String)
    (hstop : σ.stopTextStream = false)
    (hdone : containsSub p "[DONE]" = false) (hdata : startsWithS p "data:" = true) :
    (payloadStep ⟨[], false⟩ σ p).1.writes
      = σ.writes ++ (if parseContent p = "" then [] else [parseContent p]) ∧
    (payloadStep ⟨[], false⟩ σ p).2 = POut.continueNext ∧
    (payloadStep ⟨[], false⟩ σ p).1.stopTextStream = false ∧
    (payloadStep ⟨[], false⟩ σ p).1.stoppedByUser = σ.stoppedByUser ∧
    (payloadStep ⟨[], false⟩ σ p).1.loopDone = σ.loopDone := by
  unfold payloadStep
  rw [if_neg (by simp [hdone, hstop]), if_pos hdata]
  dsimp only
  split
  case isTrue hnds =>
    split
    case isTrue hbm =>
      split
      case isTrue hbrk =>
        exact absurd hbrk
          (show ¬ (patTruthy (([] : List (Option XPat)).head?.join) = true) by decide)
      case isFalse hbrk =>
        split
        case isTrue hemit =>
          have hc : ¬ (parseContent p = "") := by simpa using hemit
          rw [if_neg hc]
          exact ⟨rfl, rfl, hstop, rfl, rfl⟩
        case isFalse hemit =>
          have hc : parseContent p = "" := by simpa using hemit
          rw [if_pos hc]
          exact ⟨by simp, rfl, hstop, rfl, rfl⟩
    case isFalse hbm =>
      exact absurd rfl hbm
  case isFalse hnds =>
    have hds : σ.dataStart = true := by simpa using hnds
    split
    case isTrue hbrk => exact absurd hbrk (by simp)
    case isFalse hbrk =>
      split
      case isTrue hemit =>
        have hc : ¬ (parseContent p = "") := by
          have h3 : σ.dataStart = true ∧ ¬ (parseContent p = "") := by simpa using hemit
          exact h3.2
        rw [if_neg hc]
        exact ⟨rfl, rfl, hstop, rfl, rfl⟩
      case isFalse hemit =>
        have hc : parseContent p = "" := by
          have h3 := hemit
          simp only [show ((σ, false) : RDState × Bool).1.dataStart = σ.dataStart from rfl,
            hds] at h3
          simpa using h3
        rw [if_pos hc]
        exact ⟨by simp, rfl, hstop, rfl, rfl⟩

/-- Payloads after a sentinel contribute nothing. -/
theorem specFrags_append_done (ps qs : List String)
    (h : ps.any (fun p => containsSub p "[DONE]") = true) :
    specFrags (ps ++ qs) = specFrags ps := by
  induction ps with
  | nil => cases h
  | cons p ps ih =>
    by_cases hd : containsSub p "[DONE]" = true
    · simp [specFrags, hd]
    · have h2 : ps.any (fun p => containsSub p "[DONE]") = true := by
        simpa [hd] using h
      by_cases hda : startsWithS p "data:" = true
      · simp [specFrags, hd, hda, ih h2]
      · simp [specFrags, hd, hda, ih h2]

/-- Without a sentinel the fragments concatenate. -/
theorem specFrags_append_not_done (ps qs : List String)
    (h : ps.any (fun p => containsSub p "[DONE]") = false) :
    specFrags (ps ++ qs) = specFrags ps ++ specFrags qs := by
  induction ps with
  | nil => simp [specFrags]
  | cons p ps ih =>
    have hd : containsSub p "[DONE]" = false := by
      by_contra hc
      simp [Bool.of_not_eq_false hc] at h
    have h2 : ps.any (fun p => containsSub p "[DONE]") = false := by
      simpa [hd] using h
    by_cases hda : startsWithS p "data:" = true
    · simp [specFrags, hd, hda, ih h2]
    · simp [specFrags, hd, hda, ih h2]

/-- The payload loop with no exclusions: writes grow by exactly the reference
fragments of this chunk, and the loop ends iff the chunk held a sentinel. -/
theorem chunkPayloads_nilExc (ps : List String) (σ : RDState)
    (hstop : σ.stopTextStream = false) (hsu : σ.stoppedByUser = false)
    (hld : σ.loopDone = false) :
    (chunkPayloads ⟨[], false⟩ σ ps).writes = σ.writes ++ specFrags ps ∧
    (chunkPayloads ⟨[], false⟩ σ ps).stopTextStream = false ∧
    (chunkPayloads ⟨[], false⟩ σ ps).stoppedByUser = false ∧
    (chunkPayloads ⟨[], false⟩ σ ps).loopDone
      = ps.any (fun p => containsSub p "[DONE]") := by
  induction ps generalizing σ with
  | nil =>
    refine ⟨?_, hstop, hsu, by simpa using hld⟩
    show σ.writes = σ.writes ++ specFrags []
    simp [specFrags]
  | cons p ps ih =>
    unfold chunkPayloads
    by_cases hd : containsSub p "[DONE]" = true
    · have hfin := payloadStep_finished_writes ⟨[], false⟩ rfl σ p hsu (by simp [hd])
      cases hout : payloadStep ⟨[], false⟩ σ p with
      | mk σ2 out =>
        rw [hout] at hfin
        cases out with
        | finished =>
          refine ⟨?_, ?_, ?_, ?_⟩
          · show σ2.writes = σ.writes ++ specFrags (p :: ps)
            rw [hfin.1]
            simp [specFrags, hd]
          · show σ2.stopTextStream = false
            rw [hfin.2.2.1]; exact hstop
          · exact hfin.2.2.2
          · show true = (p :: ps).any fun p => containsSub p "[DONE]"
            simp [hd]
        | breakChunk => cases hfin.2.1
        | continueNext => cases hfin.2.1
    · have hd2 : containsSub p "[DONE]" = false := by simpa using hd
      by_cases hda : startsWithS p "data:" = true
      · have hpl := payloadStep_nilExc σ p hstop hd2 hda
        cases hout : payloadStep ⟨[], false⟩ σ p with
        | mk σ2 out =>
          rw [hout] at hpl
          cases out with
          | finished => cases hpl.2.1
          | breakChunk => cases hpl.2.1
          | continueNext =>
            have hrec := ih σ2 hpl.2.2.1 (by rw [hpl.2.2.2.1]; exact hsu)
              (by rw [hpl.2.2.2.2]; exact hld)
            refine ⟨?_, hrec.2.1, hrec.2.2.1, ?_⟩
            · rw [hrec.1, hpl.1]
              simp [specFrags, hd2, hda]
            · rw [hrec.2.2.2]
              simp [hd2]
      · have hda2 : startsWithS p "data:" = false := by simpa using hda
        rw [payloadStep_skip ⟨[], false⟩ σ p (by simp [hd2, hstop]) hda2]
        have hrec := ih σ hstop hsu hld
        refine ⟨?_, hrec.2.1, hrec.2.2.1, ?_⟩
        · rw [hrec.1]
          simp [specFrags, hd2, hda2]
        · rw [hrec.2.2.2]
          simp [hd2]

/-- Chunk events after the loop ended change nothing. -/
theorem foldlChunks_done (cfg : RDConfig) (chunks : List String) (σ : RDState)
    (hld : σ.loopDone = true) :
    (chunks.map Ev.chunk).foldl (evStep cfg) σ = σ := by
  induction chunks with
  | nil => rfl
  | cons c rest ih =>
    rw [List.map_cons, List.foldl_cons]
    rw [show evStep cfg σ (Ev.chunk c) = σ by
      show (if σ.loopDone = true then σ else chunkPayloads cfg σ (jsSplit c "\n\n")) = σ
      rw [if_pos hld]]
    exact ih

/-- The running fold over chunk events with no exclusions produces exactly
the reference fragments of all payloads. -/
theorem foldlChunks_nilExc (chunks : List String) (σ : RDState)
    (hstop : σ.stopTextStream = false) (hsu : σ.stoppedByUser = false)
    (hld : σ.loopDone = false) :
    ((chunks.map Ev.chunk).foldl (evStep ⟨[], false⟩) σ).writes
      = σ.writes ++ specFrags (allPayloads chunks) := by
  induction chunks generalizing σ with
  | nil => simp [allPayloads, flattenL, specFrags]
  | cons c rest ih =>
    rw [List.map_cons, List.foldl_cons]
    have hchunk : evStep ⟨[], false⟩ σ (Ev.chunk c)
        = chunkPayloads ⟨[], false⟩ σ (jsSplit c "\n\n") := by
      show (if σ.loopDone = true then σ else chunkPayloads ⟨[], false⟩ σ (jsSplit c "\n\n"))
          = chunkPayloads ⟨[], false⟩ σ (jsSplit c "\n\n")
      rw [if_neg (by simp [hld])]
    rw [hchunk]
    have hcl := chunkPayloads_nilExc (jsSplit c "\n\n") σ hstop hsu hld
    have hall : allPayloads (c :: rest) = jsSplit c "\n\n" ++ allPayloads rest := rfl
    by_cases hany : (jsSplit c "\n\n").any (fun p => containsSub p "[DONE]") = true
    · rw [foldlChunks_done ⟨[], false⟩ rest _ (by rw [hcl.2.2.2]; exact hany)]
      rw [hcl.1, hall, specFrags_append_done _ _ hany]
    · have hany2 : (jsSplit c "\n\n").any (fun p => containsSub p "[DONE]") = false := by
        simpa using hany
      rw [ih _ hcl.2.1 hcl.2.2.1 (by rw [hcl.2.2.2]; exact hany2)]
      rw [hcl.1, hall, specFrags_append_not_done _ _ hany2]
      simp

/-- Event `streamEnd` never writes. -/
theorem streamEndStep_writes (cfg : RDConfig) (σ : RDState) :
    (streamEndStep cfg σ).writes = σ.writes := by
  unfold streamEndStep
  split
  · rfl
  · have hc := cleanupState_fields cfg { σ with loopDone := true }
    unfold resolveWith
    dsimp only
    cases hs : (cleanupState cfg { σ with loopDone := true }).settled with
    | some w =>
      exact hc.2.2.1
    | none =>
      exact hc.2.2.1

/-! ### Claim C4 -/

/-- C4: the decoder never hands text to the writer before the first
exclusion pattern (the start-of-content detector) has matched the
look-behind buffer — a run in which the detector never fired has an empty
write trace (first conjunct, any configuration); and with no exclusion
patterns configured, the write trace is exactly the non-empty content
fragments of the data payloads up to the sentinel — so emission begins with
the first non-empty content fragment (second conjunct). -/
theorem c4_emission_gating (excluded : List (Option XPat)) (prior : Bool)
    (evs : List Ev) (chunks : List String)
    (h : (runEvents ⟨excluded, false⟩ prior evs).matchFired = false) :
    (runEvents ⟨excluded, false⟩ prior evs).writes = [] ∧
    (runChunks [] chunks).writes = specFrags (allPayloads chunks) := by
  constructor
  · exact (runEvents_NA ⟨excluded, false⟩ rfl prior evs).2.2.2.1 h
  · unfold runChunks runEvents
    rw [List.foldl_append, List.foldl_cons, List.foldl_nil]
    rw [show evStep ⟨[], false⟩
          (List.foldl (evStep ⟨[], false⟩) (initRDState ⟨[], false⟩ false)
            (chunks.map Ev.chunk)) Ev.streamEnd
        = streamEndStep ⟨[], false⟩
            (List.foldl (evStep ⟨[], false⟩) (initRDState ⟨[], false⟩ false)
              (chunks.map Ev.chunk)) from rfl]
    rw [streamEndStep_writes]
    rw [foldlChunks_nilExc chunks (initRDState ⟨[], false⟩ false) rfl rfl rfl]
    show ([] : List String) ++ specFrags (allPayloads chunks) = specFrags (allPayloads chunks)
    simp

/-- Witness for C4: a run over only the sentinel frame never fires the
detector and writes nothing; the frames of the scenario emit exactly their
fragments. -/
theorem c4_emission_gating_witness :
    (runEvents ⟨shellCodeExclusions, false⟩ false [Ev.chunk frameDone]).matchFired = false ∧
    ((runEvents ⟨shellCodeExclusions, false⟩ false [Ev.chunk frameDone]).writes = [] ∧
      (runChunks [] c8frames).writes = specFrags (allPayloads c8frames)) :=
  ⟨by decide, c4_emission_gating shellCodeExclusions false [Ev.chunk frameDone] c8frames
    (by decide)⟩
